import Mathlib

/-!
# Verification of the Ito game turn engine (`ito_graph.py`)

This file gives a shallow embedding of the turn engine of the Ito card game
(`src/ito_graph.py`, with the deck utility `src/utils/deck.py` and the
estimator fallback logic of `src/agents/estimator.py`) and proves the
specified properties about it.

Modelling conventions:
* Python dicts that the engine builds by inserting keys in iteration order
  are modelled as association lists (`List (String × _)`) in insertion
  order; `dict.get(k, d)` becomes `(l.lookup k).getD d`.
* LLM-backed decision providers (speaker / estimator / discussion) are
  opaque to the engine: each node takes them as function parameters that
  return the raw strings the Python code extracts from the provider result.
* A Python function that raises is embedded with `Except`; `draw_card`
  raising `IndexError` on an empty deck becomes `Except DeckError`.
* Machine integers are `Nat` (card values are 1..100, turn counters are
  non-negative; no overflow is possible at these sizes in Python).
-/

namespace Ito

/-- Model of Python `str.strip()`: remove whitespace from both ends of
the string (written over the character list so that it evaluates inside
the kernel). -/
def pyStrip (s : String) : String :=
  ⟨((s.data.dropWhile Char.isWhitespace).reverse.dropWhile Char.isWhitespace).reverse⟩

/-- Model of Python `str.upper()` (ASCII uppercasing, which is all the
engine compares: `PLAY` / `WAIT`). -/
def pyUpper (s : String) : String :=
  ⟨s.data.map Char.toUpper⟩

/-- Error raised by `utils/deck.py::draw_card` on an empty deck
(`IndexError("Deck is empty")`, called `EmptyDeckError` in the design). -/
inductive DeckError where
  | empty
deriving DecidableEq

/-- Embeds `utils/deck.py::draw_card`: `deck.pop()` removes and returns the
last element of the list, raising when the deck is empty.  The functional
version returns the drawn card together with the remaining deck. -/
def draw_card (deck : List Nat) : Except DeckError (Nat × List Nat) :=
  match deck.getLast? with
  | none => .error .empty
  | some c => .ok (c, deck.dropLast)

/-- The dealing loop of `_setup_node`: `for agent in agents: hands[agent] =
draw_card(deck)` — one draw per list element, threading the deck. -/
def dealHands : List String → List Nat → Except DeckError (List (String × Nat) × List Nat)
  | [], deck => .ok ([], deck)
  | a :: rest, deck =>
    match draw_card deck with
    | .error e => .error e
    | .ok (c, deck1) =>
      match dealHands rest deck1 with
      | .error e => .error e
      | .ok (hs, deck2) => .ok ((a, c) :: hs, deck2)

/-- Engine construction parameters (`ItoGameGraph.__init__`).  `theme`
models `self.theme` with `""` for `None` (both are falsy in
`self.theme or random.choice(THEMES_JA)`); `randomTheme` stands for the
value `random.choice(THEMES_JA)` would produce. -/
structure Config where
  agentIds : List String
  maxTurns : Nat
  theme : String
  randomTheme : String
deriving DecidableEq

/-- Embeds `models/schemas.py::GameState` (a `TypedDict` with optional
keys).  Absent keys are modelled by the default values below, which is how
`state.get(...)` reads them.  The `debug`/`reveal` flags only control
printing and are omitted. -/
structure GameState where
  theme : String := ""
  history : List String := []
  played_cards : List Nat := []
  last_played_card : Nat := 0
  utterances : List (String × String) := []
  turn_count : Nat := 0
  status : String := ""
  deck : List Nat := []
  agents : List String := []
  hands : List (String × Nat) := []
  votes : List (String × String) := []
  finished_agents : List String := []
  speaker_reasonings : List (String × String) := []
  estimator_thoughts : List (String × String) := []
  theme_override : String := ""
deriving DecidableEq, Inhabited

/-- `hands[a]` — lookup of an agent's card.  In graph runs the key is
always present; the `getD 0` default never fires there. -/
def handOf (s : GameState) (a : String) : Nat :=
  (s.hands.lookup a).getD 0

/-- The Python test `set(provided_hands.keys()) == set(agents)` guarding
reuse of a pre-supplied hand mapping. -/
def sameKeySet (ks agents : List String) : Bool :=
  ks.all (fun k => agents.contains k) && agents.all (fun a => ks.contains a)

/-- `state.get("agents") or self.agent_ids` in `_setup_node`: a missing or
empty agent list falls back to the constructor's ids. -/
def resolvedAgents (cfg : Config) (s : GameState) : List String :=
  if s.agents.isEmpty then cfg.agentIds else s.agents

/-- The hand-acquisition branch of `_setup_node`: reuse a complete
pre-supplied mapping (removing its values from the fresh deck), otherwise
deal one card per agent. -/
def setupDeal (deck0 : List Nat) (hands0 : List (String × Nat)) (agents : List String) :
    Except DeckError (List (String × Nat) × List Nat) :=
  if sameKeySet (hands0.map Prod.fst) agents then
    .ok (hands0, deck0.filter (fun c => !(hands0.map Prod.snd).contains c))
  else
    dealHands agents deck0

/-- Embeds `ItoGameGraph._setup_node`.  `deck0` is the freshly shuffled
deck produced by `create_deck()` (a permutation of `1..100`; the claims
take its length as a hypothesis rather than fixing one shuffle). -/
def setupNode (cfg : Config) (deck0 : List Nat) (s : GameState) : Except DeckError GameState :=
  let agents := resolvedAgents cfg s
  match setupDeal deck0 s.hands agents with
  | .error e => .error e
  | .ok (hands, deck) =>
    let override := pyStrip s.theme_override
    let theme := if override ≠ "" then override
                 else if cfg.theme ≠ "" then cfg.theme else cfg.randomTheme
    let history := if s.history.isEmpty then ["ゲーム開始。お題: " ++ theme] else s.history
    .ok { s with
      theme := theme
      history := history
      played_cards := []
      last_played_card := 0
      utterances := []
      turn_count := 0
      status := "ACTIVE"
      deck := deck
      agents := agents
      votes := []
      finished_agents := []
      speaker_reasonings := []
      estimator_thoughts := []
      theme_override := override
      hands := hands }

/-- The agents the per-agent loops visit: `state["agents"]` minus
`state["finished_agents"]` (the loops `continue` on finished agents). -/
def activeAgents (s : GameState) : List String :=
  s.agents.filter (fun a => !s.finished_agents.contains a)

/-- Embeds `ItoGameGraph._speaking_node`.  `w a` is the clue string the
node records for agent `a` (provider word, or the human input with the
empty-input placeholder already applied); `r a` is the recorded reasoning.
Only `utterances`, `speaker_reasonings` and `history` change. -/
def speakingNode (w r : String → String) (s : GameState) : GameState :=
  let active := activeAgents s
  { s with
    utterances := active.map (fun a => (a, w a))
    speaker_reasonings := s.speaker_reasonings ++ active.map (fun a => (a, r a))
    history := s.history ++ active.map (fun a => a ++ " の発言: 『" ++ w a ++ "』") }

/-- The vote normalisation of `_voting_node`:
`str(...).strip().upper()`, then anything outside `{PLAY, WAIT}` becomes
`WAIT`.  The human branch (`"PLAY" if raw == "PLAY" else "WAIT"` on the
stripped upper-cased input) computes the same function. -/
def normalizeAction (raw : String) : String :=
  let u := pyUpper (pyStrip raw)
  if u = "PLAY" ∨ u = "WAIT" then u else "WAIT"

/-- The vote-collection loop of `_voting_node`: iterate `agents` in list
order, skip finished agents, record the normalised action. -/
def buildVotes (d : String → String) (finished : List String) : List String → List (String × String)
  | [] => []
  | a :: rest =>
    if finished.contains a then buildVotes d finished rest
    else (a, normalizeAction (d a)) :: buildVotes d finished rest

/-- Embeds `ItoGameGraph._voting_node`.  `d a` is the raw `action` string
the estimator (or human prompt) returns for agent `a`; `th a` the recorded
thought.  `votes` and `estimator_thoughts` are rebuilt from scratch. -/
def votingNode (d th : String → String) (s : GameState) : GameState :=
  { s with
    votes := buildVotes d s.finished_agents s.agents
    estimator_thoughts := (activeAgents s).map (fun a => (a, th a)) }

/-- `play_candidates = [agent for agent, action in votes.items() if action
== "PLAY"]` (both in `_router_node` and `_execute_play_node`). -/
def playCandidates (votes : List (String × String)) : List String :=
  (votes.filter (fun p => p.2 = "PLAY")).map Prod.fst

/-- Embeds `min(play_candidates, key=lambda x: hands[x])`: Python `min`
keeps the first element attaining the minimal key (later elements replace
the current best only on a strictly smaller key). -/
def minByHand (hands : String → Nat) : List String → Option String
  | [] => none
  | a :: rest => some (rest.foldl (fun best x => if hands x < hands best then x else best) a)

/-- Embeds `ItoGameGraph._execute_play_node`.  With no `PLAY` candidate
Python `min` would raise, but the router never sends such a state here; we
return the state unchanged in that vacuous branch to keep the function
total. -/
def executePlayNode (s : GameState) : GameState :=
  match minByHand (handOf s) (playCandidates s.votes) with
  | none => s
  | some player =>
    let card := handOf s player
    let finished := s.finished_agents ++ [player]
    let status :=
      if card < s.last_played_card then "FAILED"
      else if finished.length = s.agents.length then "SUCCESS"
      else "ACTIVE"
    { s with
      played_cards := s.played_cards ++ [card]
      last_played_card := card
      finished_agents := finished
      history := s.history ++ [player ++ " が " ++ toString card ++ " を出した。"]
      status := status }

/-- The question-proposal loop of `_wait_round_node`: each active agent in
list order proposes `(pq a).strip()`; the proposal is recorded only when it
is non-empty and not in `seen_questions` (first proposer wins). -/
def collectProposals (pq : String → String) : List String → List String → List (String × String)
  | [], _ => []
  | a :: rest, seen =>
    let q := pyStrip (pq a)
    if q ≠ "" ∧ !seen.contains q then
      (a, q) :: collectProposals pq rest (q :: seen)
    else
      collectProposals pq rest seen

/-- The hard-coded final fallback question of `_wait_round_node`. -/
def defaultModQuestion : String := "それぞれの発言は、どれくらい強い/大きいイメージですか？"

/-- Proposals plus the two moderator fallbacks of `_wait_round_node`:
if nobody proposed, use the general-question provider output `gq`
(stripped); if that is empty too, use the fixed default question. -/
def finalProposals (pq : String → String) (gq : String) (active : List String) :
    List (String × String) :=
  let ps := collectProposals pq active []
  if ps.isEmpty then
    let q := pyStrip gq
    if q ≠ "" then [("(moderator)", q)] else [("(moderator)", defaultModQuestion)]
  else ps

/-- The answer loop for one question: each active agent's stripped answer
is logged when non-empty. -/
def answerLines (ansF : String → String → String) (active : List String)
    (qOwner q : String) : List String :=
  active.filterMap (fun a =>
    let t := pyStrip (ansF q a)
    if t = "" then none
    else some (a ++ " の回答（質問者=" ++ qOwner ++ "）: " ++ t))

/-- The history lines produced for one proposal `(owner, q)`: skip an empty
(stripped) question, otherwise the question line followed by the answers. -/
def questionBlock (ansF : String → String → String) (active : List String)
    (p : String × String) : List String :=
  let q := pyStrip p.2
  if q = "" then []
  else ("質問（" ++ p.1 ++ "）: " ++ q) :: answerLines ansF active p.1 q

/-- Everything `_wait_round_node` appends to `history` before the
stagnation check: the `全員WAIT。` marker and the question/answer blocks. -/
def waitHistoryUpdate (pq : String → String) (gq : String)
    (ansF : String → String → String) (active : List String) : List String :=
  "全員WAIT。" :: (finalProposals pq gq active).flatMap (questionBlock ansF active)

/-- Embeds `ItoGameGraph._wait_round_node`.  `pq a` is the raw question
text the player-question provider (or human prompt) yields for agent `a`,
`gq` the raw moderator general question, `ansF q a` agent `a`'s raw answer
to question `q`. -/
def waitRoundNode (cfg : Config) (pq : String → String) (gq : String)
    (ansF : String → String → String) (s : GameState) : GameState :=
  let active := activeAgents s
  let hu := waitHistoryUpdate pq gq ansF active
  let nextTurn := s.turn_count + 1
  if cfg.maxTurns ≤ nextTurn then
    { s with
      history := s.history ++ hu ++ ["停滞が続いたため終了。"]
      turn_count := nextTurn
      votes := []
      status := "FAILED" }
  else
    { s with
      history := s.history ++ hu
      turn_count := nextTurn
      votes := [] }

/-- Embeds the `action` field computed by `agents/estimator.py::
decide_action` for a live backend.  `attempt` is `.error e` when the chain
invocation raises or `parse_json_object` fails to decode the response
(the `except` branch returns action `WAIT`), and `.ok r` when a JSON
object was decoded, with `r` its optional `action` field
(`result.get("action", "WAIT")` supplies the default). -/
def decideAction (attempt : Except String (Option String)) : String :=
  match attempt with
  | .error _ => "WAIT"
  | .ok r =>
    let action := pyUpper (pyStrip (r.getD "WAIT"))
    if action = "PLAY" ∨ action = "WAIT" then action else "WAIT"

/-- The control points of the compiled LangGraph between node executions:
the node that will run next, or `done` for `END`. -/
inductive Node where
  | speaking
  | voting
  | play
  | wait
  | done
deriving DecidableEq

/-- One node execution of the graph together with its routing
(`_build_graph`): `speaking → voting` unconditionally; after `voting` the
router `_router_node` picks `execute_play` exactly when some agent voted
`PLAY`; after `execute_play`/`wait_round` the check `_check_game_end`
loops to `voting` when the status is `ACTIVE` and otherwise ends.  The
provider functions are fresh arguments at every step: each LLM call may
return anything. -/
inductive Step (cfg : Config) : Node → GameState → Node → GameState → Prop where
  | speak (w r : String → String) (s : GameState) :
      Step cfg .speaking s .voting (speakingNode w r s)
  | voteToPlay (d th : String → String) (s : GameState)
      (h : playCandidates (votingNode d th s).votes ≠ []) :
      Step cfg .voting s .play (votingNode d th s)
  | voteToWait (d th : String → String) (s : GameState)
      (h : playCandidates (votingNode d th s).votes = []) :
      Step cfg .voting s .wait (votingNode d th s)
  | playLoop (s : GameState) (h : (executePlayNode s).status = "ACTIVE") :
      Step cfg .play s .voting (executePlayNode s)
  | playEnd (s : GameState) (h : (executePlayNode s).status ≠ "ACTIVE") :
      Step cfg .play s .done (executePlayNode s)
  | waitLoop (pq : String → String) (gq : String) (ansF : String → String → String)
      (s : GameState) (h : (waitRoundNode cfg pq gq ansF s).status = "ACTIVE") :
      Step cfg .wait s .voting (waitRoundNode cfg pq gq ansF s)
  | waitEnd (pq : String → String) (gq : String) (ansF : String → String → String)
      (s : GameState) (h : (waitRoundNode cfg pq gq ansF s).status ≠ "ACTIVE") :
      Step cfg .wait s .done (waitRoundNode cfg pq gq ansF s)

/-- The states reachable from Setup: `Reach cfg n s` says a run of the
graph is at control point `n` holding state `s`.  The entry edge is
`setup → speaking`; Setup must have succeeded. -/
inductive Reach (cfg : Config) : Node → GameState → Prop where
  | init (deck0 : List Nat) (s0 s1 : GameState)
      (h : setupNode cfg deck0 s0 = .ok s1) : Reach cfg .speaking s1
  | step {n s n' s'} (hr : Reach cfg n s) (hs : Step cfg n s n' s') : Reach cfg n' s'

/-! ## Basic lemmas about the embedded operations -/

/-- Every member of a list is bounded by its `foldr max 0`. -/
lemma le_foldr_max {l : List Nat} {x : Nat} (hx : x ∈ l) : x ≤ l.foldr max 0 := by
  induction l with
  | nil => cases hx
  | cons a l ih =>
    rcases List.mem_cons.mp hx with rfl | hmem
    · exact le_max_left _ _
    · exact le_trans (ih hmem) (le_max_right _ _)

/-- `foldr max` with a seed pulls the seed out as an outer `max`. -/
lemma foldr_max_seed (l : List Nat) (e : Nat) :
    l.foldr max e = max (l.foldr max 0) e := by
  induction l with
  | nil => simp
  | cons a l ih => simp [ih, max_assoc]

/-- Appending one card to the table takes the max with it. -/
lemma foldr_max_append (l : List Nat) (c : Nat) :
    (l ++ [c]).foldr max 0 = max (l.foldr max 0) c := by
  rw [List.foldr_append, foldr_max_seed]
  simp

/-- The fold inside `minByHand` returns an element of `a :: l`. -/
lemma minFold_mem (h : String → Nat) (l : List String) (a : String) :
    l.foldl (fun best x => if h x < h best then x else best) a ∈ a :: l := by
  induction l generalizing a with
  | nil => simp
  | cons x rest ih =>
    simp only [List.foldl_cons]
    have hmem := ih (if h x < h a then x else a)
    rcases List.mem_cons.mp hmem with heq | hm
    · rw [heq]
      by_cases hc : h x < h a <;> simp [hc]
    · simp [hm]

/-- The fold inside `minByHand` attains a hand value that is a lower bound
for the seed and for every listed agent. -/
lemma minFold_le (h : String → Nat) (l : List String) (a : String) :
    h (l.foldl (fun best x => if h x < h best then x else best) a) ≤ h a ∧
    ∀ x ∈ l, h (l.foldl (fun best x => if h x < h best then x else best) a) ≤ h x := by
  induction l generalizing a with
  | nil => simp
  | cons x rest ih =>
    simp only [List.foldl_cons]
    by_cases hc : h x < h a
    · rw [if_pos hc]
      have hrec := ih x
      refine ⟨le_trans hrec.1 (le_of_lt hc), ?_⟩
      intro y hy
      rcases List.mem_cons.mp hy with rfl | hmem
      · exact hrec.1
      · exact hrec.2 y hmem
    · rw [if_neg hc]
      have hrec := ih a
      refine ⟨hrec.1, ?_⟩
      intro y hy
      rcases List.mem_cons.mp hy with rfl | hmem
      · exact le_trans hrec.1 (le_of_not_lt hc)
      · exact hrec.2 y hmem

/-- On a non-empty candidate list, `minByHand` picks a candidate whose hand
is minimal (the first such, as Python `min` does). -/
lemma minByHand_spec (h : String → Nat) (l : List String) (hne : l ≠ []) :
    ∃ m, minByHand h l = some m ∧ m ∈ l ∧ ∀ x ∈ l, h m ≤ h x := by
  cases l with
  | nil => exact absurd rfl hne
  | cons a rest =>
    refine ⟨_, rfl, minFold_mem h rest a, ?_⟩
    intro x hx
    rcases List.mem_cons.mp hx with rfl | hmem
    · exact (minFold_le h rest x).1
    · exact (minFold_le h rest a).2 x hmem

/-- `minByHand` is `some` exactly on non-empty lists. -/
lemma minByHand_eq_none (h : String → Nat) (l : List String) :
    minByHand h l = none ↔ l = [] := by
  cases l <;> simp [minByHand]

/-- The vote-collection loop is the filtered projection of the agent
list. -/
lemma buildVotes_eq (d : String → String) (finished l : List String) :
    buildVotes d finished l =
      (l.filter (fun a => !finished.contains a)).map
        (fun a => (a, normalizeAction (d a))) := by
  induction l with
  | nil => rfl
  | cons a rest ih =>
    by_cases hc : a ∈ finished
    · simp [buildVotes, hc, ih]
    · simp [buildVotes, hc, ih]

/-- Members of the built vote list: active agents with normalised
actions. -/
lemma mem_buildVotes {d : String → String} {finished l : List String}
    {p : String × String} (hp : p ∈ buildVotes d finished l) :
    p.1 ∈ l ∧ p.1 ∉ finished ∧ p.2 = normalizeAction (d p.1) := by
  rw [buildVotes_eq] at hp
  rcases List.mem_map.mp hp with ⟨a, ha, rfl⟩
  have := List.mem_filter.mp ha
  refine ⟨this.1, ?_, rfl⟩
  simpa using this.2

/-- Normalised votes are always `PLAY` or `WAIT`. -/
lemma normalizeAction_cases (raw : String) :
    normalizeAction raw = "PLAY" ∨ normalizeAction raw = "WAIT" := by
  unfold normalizeAction
  by_cases hc : pyUpper (pyStrip raw) = "PLAY" ∨ pyUpper (pyStrip raw) = "WAIT"
  · rcases hc with h1 | h1 <;> simp [h1]
  · simp [hc]

/-- Membership in the play-candidate list. -/
lemma mem_playCandidates {votes : List (String × String)} {a : String} :
    a ∈ playCandidates votes ↔ ∃ p ∈ votes, p.1 = a ∧ p.2 = "PLAY" := by
  unfold playCandidates
  constructor
  · intro h
    rcases List.mem_map.mp h with ⟨p, hp, rfl⟩
    have := List.mem_filter.mp hp
    exact ⟨p, this.1, rfl, by simpa using this.2⟩
  · rintro ⟨p, hp, rfl, h2⟩
    exact List.mem_map.mpr ⟨p, List.mem_filter.mpr ⟨hp, by simpa using h2⟩, rfl⟩

/-- A nodup sublist-up-to-permutation of equal length is mutually
containing: the engine's `len(finished) == len(agents)` check means every
agent has finished, given the no-duplicates invariants. -/
lemma length_eq_iff_all_mem {agents fin : List String}
    (ha : agents.Nodup) (hf : fin.Nodup) (hsub : ∀ a ∈ fin, a ∈ agents) :
    fin.length = agents.length ↔ ∀ a ∈ agents, a ∈ fin := by
  have hsp : List.Subperm fin agents := hf.subperm hsub
  constructor
  · intro hlen
    have hperm : List.Perm fin agents := hsp.perm_of_length_le (le_of_eq hlen.symm)
    intro a hafin
    exact hperm.mem_iff.mpr hafin
  · intro hall
    have hsp2 : List.Subperm agents fin := ha.subperm hall
    exact le_antisymm hsp.length_le hsp2.length_le

/-- Dealing more cards than the deck holds fails. -/
lemma dealHands_err (agents : List String) :
    ∀ deck : List Nat, deck.length < agents.length →
      dealHands agents deck = .error .empty := by
  induction agents with
  | nil => intro deck h; cases h
  | cons a rest ih =>
    intro deck h
    cases deck with
    | nil => rfl
    | cons c deckRest =>
      have hne : (c :: deckRest) ≠ [] := by simp
      unfold dealHands draw_card
      rw [List.getLast?_eq_getLast _ hne]
      simp only
      have hlen : (c :: deckRest).dropLast.length < rest.length := by
        simp only [List.length_dropLast, List.length_cons] at h ⊢
        omega
      rw [ih _ hlen]

/-- Field values of a successful Setup: all counters and collections are
reset and the game starts `ACTIVE`. -/
lemma setupNode_ok {cfg : Config} {deck0 : List Nat} {s0 s1 : GameState}
    (h : setupNode cfg deck0 s0 = .ok s1) :
    s1.finished_agents = [] ∧ s1.played_cards = [] ∧
    s1.last_played_card = 0 ∧ s1.status = "ACTIVE" ∧
    s1.votes = [] ∧ s1.turn_count = 0 := by
  simp only [setupNode] at h
  cases hd : setupDeal deck0 s0.hands (resolvedAgents cfg s0) with
  | error e => rw [hd] at h; cases h
  | ok pr =>
    rcases pr with ⟨hands, deck⟩
    rw [hd] at h
    cases h
    exact ⟨rfl, rfl, rfl, rfl, rfl, rfl⟩

/-! ## Node-output characterisations -/

/-- `executePlayNode` with a selected player, spelled out. -/
lemma executePlayNode_some {s : GameState} {player : String}
    (hm : minByHand (handOf s) (playCandidates s.votes) = some player) :
    executePlayNode s =
      { s with
        played_cards := s.played_cards ++ [handOf s player]
        last_played_card := handOf s player
        finished_agents := s.finished_agents ++ [player]
        history := s.history ++ [player ++ " が " ++ toString (handOf s player) ++ " を出した。"]
        status :=
          if handOf s player < s.last_played_card then "FAILED"
          else if (s.finished_agents ++ [player]).length = s.agents.length then "SUCCESS"
          else "ACTIVE" } := by
  unfold executePlayNode
  rw [hm]

/-- `executePlayNode` is the identity on the (unreachable) no-candidate
branch. -/
lemma executePlayNode_none {s : GameState}
    (hm : minByHand (handOf s) (playCandidates s.votes) = none) :
    executePlayNode s = s := by
  unfold executePlayNode
  rw [hm]

/-- The fields of a DiscussionRound output that the invariants track. -/
lemma waitRound_fields (cfg : Config) (pq : String → String) (gq : String)
    (ansF : String → String → String) (s : GameState) :
    (waitRoundNode cfg pq gq ansF s).played_cards = s.played_cards ∧
    (waitRoundNode cfg pq gq ansF s).last_played_card = s.last_played_card ∧
    (waitRoundNode cfg pq gq ansF s).finished_agents = s.finished_agents ∧
    (waitRoundNode cfg pq gq ansF s).agents = s.agents ∧
    (waitRoundNode cfg pq gq ansF s).votes = [] ∧
    (waitRoundNode cfg pq gq ansF s).turn_count = s.turn_count + 1 ∧
    ((waitRoundNode cfg pq gq ansF s).status = s.status ∨
      (waitRoundNode cfg pq gq ansF s).status = "FAILED") := by
  unfold waitRoundNode
  by_cases hb : cfg.maxTurns ≤ s.turn_count + 1 <;> simp [hb]

/-! ## The reachability invariant -/

/-- The state invariant maintained by every node of the graph, indexed by
the control point `n`:
* `finished_agents` has no duplicates and stays inside `agents`;
* one card on the table per finished agent;
* every control point except `END` holds an `ACTIVE` state;
* unless the game has failed, the table is non-decreasing and
  `last_played_card` is its maximum (and last) entry;
* when PlayResolution or a DiscussionRound is about to run, the votes it
  reads belong to active (non-finished) agents. -/
def Inv (n : Node) (s : GameState) : Prop :=
  s.finished_agents.Nodup ∧
  (∀ a ∈ s.finished_agents, a ∈ s.agents) ∧
  s.played_cards.length = s.finished_agents.length ∧
  (n ≠ .done → s.status = "ACTIVE") ∧
  (s.status ≠ "FAILED" →
    List.Chain' (· ≤ ·) s.played_cards ∧
    s.last_played_card = s.played_cards.foldr max 0) ∧
  ((n = .play ∨ n = .wait) → ∀ p ∈ s.votes, p.1 ∈ s.agents ∧ p.1 ∉ s.finished_agents)

/-- The chosen player is a `PLAY` voter. -/
lemma minByHand_mem_candidates {s : GameState} {player : String}
    (hm : minByHand (handOf s) (playCandidates s.votes) = some player) :
    player ∈ playCandidates s.votes := by
  have hne : playCandidates s.votes ≠ [] := by
    intro hnil
    rw [hnil] at hm
    cases hm
  obtain ⟨m, hm2, hmem, _⟩ := minByHand_spec (handOf s) (playCandidates s.votes) hne
  rw [hm] at hm2
  cases hm2
  exact hmem

/-- Core invariant preservation across one PlayResolution. -/
lemma executePlay_inv {s : GameState} (hInv : Inv .play s) :
    (executePlayNode s).finished_agents.Nodup ∧
    (∀ a ∈ (executePlayNode s).finished_agents, a ∈ (executePlayNode s).agents) ∧
    (executePlayNode s).played_cards.length = (executePlayNode s).finished_agents.length ∧
    ((executePlayNode s).status ≠ "FAILED" →
      List.Chain' (· ≤ ·) (executePlayNode s).played_cards ∧
      (executePlayNode s).last_played_card = (executePlayNode s).played_cards.foldr max 0) := by
  obtain ⟨i1, i2, i3, i4, i5, i6⟩ := hInv
  have hvotes := i6 (Or.inl rfl)
  cases hm : minByHand (handOf s) (playCandidates s.votes) with
  | none =>
    rw [executePlayNode_none hm]
    exact ⟨i1, i2, i3, i5⟩
  | some player =>
    obtain ⟨p, hp, hp1, hp2⟩ := mem_playCandidates.mp (minByHand_mem_candidates hm)
    have hpa : player ∈ s.agents := hp1 ▸ (hvotes p hp).1
    have hpf : player ∉ s.finished_agents := hp1 ▸ (hvotes p hp).2
    rw [executePlayNode_some hm]
    refine ⟨?_, ?_, ?_, ?_⟩
    · simpa [List.nodup_append] using ⟨i1, hpf⟩
    · intro a ha
      rcases List.mem_append.mp ha with h1 | h1
      · exact i2 a h1
      · rw [List.mem_singleton.mp h1]; exact hpa
    · simp [i3]
    · intro hst
      by_cases hlt : handOf s player < s.last_played_card
      · exact absurd (by simp [hlt]) hst
      · have hact : s.status = "ACTIVE" := i4 (by simp)
        have hch := i5 (by rw [hact]; decide)
        have hle : s.last_played_card ≤ handOf s player := le_of_not_lt hlt
        constructor
        · refine List.Chain'.append hch.1 (List.chain'_singleton _) ?_
          intro x hx y hy
          rw [List.head?_cons, Option.mem_some_iff] at hy
          subst hy
          have hxm : x ∈ s.played_cards := List.mem_of_mem_getLast? hx
          calc x ≤ s.played_cards.foldr max 0 := le_foldr_max hxm
            _ = s.last_played_card := hch.2.symm
            _ ≤ handOf s player := hle
        · rw [foldr_max_append, ← hch.2]
          exact (max_eq_right hle).symm

/-- One graph step preserves the invariant. -/
lemma step_inv {cfg : Config} {n : Node} {s : GameState} {n' : Node} {s' : GameState}
    (hs : Step cfg n s n' s') (ih : Inv n s) : Inv n' s' := by
  cases hs with
    | speak w r t =>
      obtain ⟨i1, i2, i3, i4, i5, i6⟩ := ih
      exact ⟨i1, i2, i3, fun _ => i4 (by simp), i5, by simp⟩
    | voteToPlay d th t hne =>
      obtain ⟨i1, i2, i3, i4, i5, i6⟩ := ih
      refine ⟨i1, i2, i3, fun _ => i4 (by simp), i5, ?_⟩
      intro _ p hp
      have hmem := mem_buildVotes hp
      exact ⟨hmem.1, hmem.2.1⟩
    | voteToWait d th t hnone =>
      obtain ⟨i1, i2, i3, i4, i5, i6⟩ := ih
      refine ⟨i1, i2, i3, fun _ => i4 (by simp), i5, ?_⟩
      intro _ p hp
      have hmem := mem_buildVotes hp
      exact ⟨hmem.1, hmem.2.1⟩
    | playLoop t hact =>
      obtain ⟨c1, c2, c3, c4⟩ := executePlay_inv ih
      exact ⟨c1, c2, c3, fun _ => hact, c4, by simp⟩
    | playEnd t hnact =>
      obtain ⟨c1, c2, c3, c4⟩ := executePlay_inv ih
      exact ⟨c1, c2, c3, by simp, c4, by simp⟩
    | waitLoop pq gq ansF t hact =>
      obtain ⟨i1, i2, i3, i4, i5, i6⟩ := ih
      obtain ⟨f1, f2, f3, f4, f5, f6, f7⟩ := waitRound_fields cfg pq gq ansF s
      refine ⟨f3 ▸ i1, ?_, ?_, fun _ => hact, ?_, ?_⟩
      · intro a ha
        rw [f4]
        exact i2 a (f3 ▸ ha)
      · rw [f1, f3]; exact i3
      · intro _
        rcases f7 with hsame | hfail
        · rw [f1, f2]
          refine i5 ?_
          rw [← hsame, hact]
          decide
        · rw [hfail] at hact; simp at hact
      · intro _ p hp
        rw [f5] at hp
        cases hp
    | waitEnd pq gq ansF t hnact =>
      obtain ⟨i1, i2, i3, i4, i5, i6⟩ := ih
      obtain ⟨f1, f2, f3, f4, f5, f6, f7⟩ := waitRound_fields cfg pq gq ansF s
      refine ⟨f3 ▸ i1, ?_, ?_, by simp, ?_, by simp⟩
      · intro a ha
        rw [f4]
        exact i2 a (f3 ▸ ha)
      · rw [f1, f3]; exact i3
      · intro hst
        rcases f7 with hsame | hfail
        · rw [f1, f2]
          refine i5 ?_
          rw [← hsame]
          exact hst
        · exact absurd hfail hst

/-- Every reachable configuration of the graph satisfies the invariant. -/
lemma reach_inv {cfg : Config} {n : Node} {s : GameState}
    (h : Reach cfg n s) : Inv n s := by
  induction h with
  | init deck0 s0 s1 hok =>
    obtain ⟨h1, h2, h3, h4, h5, h6⟩ := setupNode_ok hok
    refine ⟨by simp [h1], by simp [h1], by simp [h1, h2], fun _ => h4, ?_, ?_⟩
    · intro _
      rw [h2, h3]
      simp
    · intro _ p hp
      rw [h5] at hp
      cases hp
  | step hr hs ih => exact step_inv hs ih

/-! ## Claim theorems -/

/-- C1: for every state whose votes contain at least one `PLAY`,
`_execute_play_node` selects the `PLAY` voter whose hand card is minimal
among all `PLAY` voters, and appends exactly that minimal card to
`played_cards` (also storing it in `last_played_card`). -/
theorem C1_play_resolution_plays_minimum (s : GameState)
    (hne : playCandidates s.votes ≠ []) :
    ∃ player,
      minByHand (handOf s) (playCandidates s.votes) = some player ∧
      player ∈ playCandidates s.votes ∧
      (∀ a ∈ playCandidates s.votes, handOf s player ≤ handOf s a) ∧
      (executePlayNode s).played_cards = s.played_cards ++ [handOf s player] ∧
      (executePlayNode s).last_played_card = handOf s player := by
  obtain ⟨m, hm, hmem, hmin⟩ := minByHand_spec (handOf s) (playCandidates s.votes) hne
  refine ⟨m, hm, hmem, hmin, ?_, ?_⟩ <;> rw [executePlayNode_some hm]

/-- C2: a PlayResolution step from an `ACTIVE` state yields `FAILED` iff
the played card is strictly below the previous `last_played_card`;
`SUCCESS` iff no such descent occurred and every agent is now finished;
and stays `ACTIVE` otherwise.  The no-duplicate/containment hypotheses are
the reachable-state invariants under which the engine's
`len(finished) == len(agents)` test means "every agent finished". -/
theorem C2_play_status_transition (s : GameState) (player : String)
    (hact : s.status = "ACTIVE")
    (hm : minByHand (handOf s) (playCandidates s.votes) = some player)
    (hagents : s.agents.Nodup)
    (hfin : s.finished_agents.Nodup)
    (hsub : ∀ a ∈ s.finished_agents, a ∈ s.agents)
    (hvotes : ∀ a ∈ playCandidates s.votes, a ∈ s.agents ∧ a ∉ s.finished_agents) :
    ((executePlayNode s).status = "FAILED" ↔
      handOf s player < s.last_played_card) ∧
    ((executePlayNode s).status = "SUCCESS" ↔
      (¬ handOf s player < s.last_played_card ∧
        ∀ a ∈ s.agents, a ∈ s.finished_agents ++ [player])) ∧
    ((executePlayNode s).status = "ACTIVE" ↔
      (¬ handOf s player < s.last_played_card ∧
        ¬ ∀ a ∈ s.agents, a ∈ s.finished_agents ++ [player])) := by
  have hmem := minByHand_mem_candidates hm
  have hpa : player ∈ s.agents := (hvotes player hmem).1
  have hpf : player ∉ s.finished_agents := (hvotes player hmem).2
  have hfin2 : (s.finished_agents ++ [player]).Nodup := by
    simpa [List.nodup_append] using ⟨hfin, hpf⟩
  have hsub2 : ∀ a ∈ s.finished_agents ++ [player], a ∈ s.agents := by
    intro a ha
    rcases List.mem_append.mp ha with h1 | h1
    · exact hsub a h1
    · rw [List.mem_singleton.mp h1]; exact hpa
  have hlen := length_eq_iff_all_mem hagents hfin2 hsub2
  rw [executePlayNode_some hm]
  dsimp only
  by_cases hlt : handOf s player < s.last_played_card
  · rw [if_pos hlt]
    refine ⟨by simp [hlt], ?_, ?_⟩
    · constructor
      · intro h; exact absurd h (by decide)
      · rintro ⟨h1, -⟩; exact absurd hlt h1
    · constructor
      · intro h; exact absurd h (by decide)
      · rintro ⟨h1, -⟩; exact absurd hlt h1
  · rw [if_neg hlt]
    by_cases hfull : (s.finished_agents ++ [player]).length = s.agents.length
    · rw [if_pos hfull]
      refine ⟨?_, ?_, ?_⟩
      · constructor
        · intro h; exact absurd h (by decide)
        · intro h; exact absurd h hlt
      · constructor
        · intro _; exact ⟨hlt, hlen.mp hfull⟩
        · intro _; rfl
      · constructor
        · intro h; exact absurd h (by decide)
        · rintro ⟨-, h2⟩; exact absurd (hlen.mp hfull) h2
    · rw [if_neg hfull]
      refine ⟨?_, ?_, ?_⟩
      · constructor
        · intro h; exact absurd h (by decide)
        · intro h; exact absurd h hlt
      · constructor
        · intro h; exact absurd h (by decide)
        · rintro ⟨-, h2⟩; exact absurd (hlen.mpr h2) hfull
      · constructor
        · intro _; exact ⟨hlt, fun hall => hfull (hlen.mpr hall)⟩
        · intro _; rfl

/-- C3: every DiscussionRound bumps `turn_count` by exactly one, clears
`votes` in both branches, fails the game exactly when the incremented
count reaches `max_turns` (entering with an `ACTIVE` state, as the graph
guarantees), and in that stagnation case appends the terminal line after
the round's discussion log. -/
theorem C3_wait_round_stagnation (cfg : Config) (pq : String → String) (gq : String)
    (ansF : String → String → String) (s : GameState) (hact : s.status = "ACTIVE") :
    (waitRoundNode cfg pq gq ansF s).turn_count = s.turn_count + 1 ∧
    (waitRoundNode cfg pq gq ansF s).votes = [] ∧
    ((waitRoundNode cfg pq gq ansF s).status = "FAILED" ↔
      cfg.maxTurns ≤ s.turn_count + 1) ∧
    (cfg.maxTurns ≤ s.turn_count + 1 →
      (waitRoundNode cfg pq gq ansF s).history =
        s.history ++ waitHistoryUpdate pq gq ansF (activeAgents s) ++
          ["停滞が続いたため終了。"]) := by
  unfold waitRoundNode
  by_cases hb : cfg.maxTurns ≤ s.turn_count + 1
  · simp [hb]
  · simp [hb, hact]

/-- C4 (amended): in every reachable state that has not `FAILED`,
`last_played_card` is the maximum of `played_cards` (`0` when none);
after a descent play the engine stores the lower card, so the equality
does not survive into the resulting `FAILED` state. -/
theorem C4_last_card_is_max_unless_failed {cfg : Config} {n : Node} {s : GameState}
    (h : Reach cfg n s) (hs : s.status ≠ "FAILED") :
    s.last_played_card = s.played_cards.foldr max 0 :=
  ((reach_inv h).2.2.2.2.1 hs).2

/-- C5: while `ACTIVE` the table is non-decreasing; a play strictly below
`last_played_card` makes the status `FAILED`; a reachable `FAILED` state
only occurs at the terminal control point, from which the graph has no
step — so nothing is ever appended to `played_cards` after a failure. -/
theorem C5_monotone_until_failure :
    (∀ (cfg : Config) (n : Node) (s : GameState), Reach cfg n s →
      s.status = "ACTIVE" → List.Chain' (· ≤ ·) s.played_cards) ∧
    (∀ (s : GameState) (player : String),
      minByHand (handOf s) (playCandidates s.votes) = some player →
      handOf s player < s.last_played_card →
      (executePlayNode s).status = "FAILED") ∧
    (∀ (cfg : Config) (n : Node) (s : GameState), Reach cfg n s →
      s.status = "FAILED" → n = .done) ∧
    (∀ (cfg : Config) (s : GameState) (n' : Node) (s' : GameState),
      ¬ Step cfg .done s n' s') := by
  refine ⟨?_, ?_, ?_, ?_⟩
  · intro cfg n s h hactive
    exact ((reach_inv h).2.2.2.2.1 (by rw [hactive]; decide)).1
  · intro s player hm hlt
    rw [executePlayNode_some hm]
    dsimp only
    rw [if_pos hlt]
  · intro cfg n s h hfail
    by_contra hne
    have hstat := (reach_inv h).2.2.2.1 hne
    rw [hstat] at hfail
    exact absurd hfail (by decide)
  · intro cfg s n' s' hstep
    cases hstep

/-- C9: in every reachable state, `finished_agents` is duplicate-free,
contained in `agents`, and matches `played_cards` in length. -/
theorem C9_finished_agents_invariant {cfg : Config} {n : Node} {s : GameState}
    (h : Reach cfg n s) :
    s.finished_agents.Nodup ∧
    (∀ a ∈ s.finished_agents, a ∈ s.agents) ∧
    s.played_cards.length = s.finished_agents.length :=
  ⟨(reach_inv h).1, (reach_inv h).2.1, (reach_inv h).2.2.1⟩

/-- C6: drawing from an empty deck fails with the deck error, and Setup
propagates that failure (aborting instead of continuing) whenever more
than 100 agents must be dealt from the 100-card deck and no complete
pre-supplied hand mapping lets it skip dealing. -/
theorem C6_setup_fails_on_deck_exhaustion :
    (draw_card [] = .error .empty) ∧
    (∀ (cfg : Config) (deck0 : List Nat) (s0 : GameState),
      deck0.length = 100 →
      100 < (resolvedAgents cfg s0).length →
      sameKeySet (s0.hands.map Prod.fst) (resolvedAgents cfg s0) = false →
      setupNode cfg deck0 s0 = .error .empty) := by
  refine ⟨rfl, ?_⟩
  intro cfg deck0 s0 hdeck hagents hkeys
  have hdealt : setupDeal deck0 s0.hands (resolvedAgents cfg s0) = .error .empty := by
    unfold setupDeal
    rw [hkeys]
    simp only [Bool.false_eq_true, if_false]
    exact dealHands_err _ _ (by rw [hdeck]; exact hagents)
  simp only [setupNode]
  rw [hdealt]

/-- C7: the estimator's decision is always normalised to exactly `PLAY`
or `WAIT`: a raised/undecodable provider call yields `WAIT` (absorbed,
never propagated — `decideAction` consumes the `Except`), an action field
outside `{PLAY, WAIT}` after strip/upper-case collapses to `WAIT`, a
well-formed one is kept; and every vote the Voting node records is
`PLAY` or `WAIT`. -/
theorem C7_estimator_vote_normalized :
    (∀ attempt : Except String (Option String),
      decideAction attempt = "PLAY" ∨ decideAction attempt = "WAIT") ∧
    (∀ e : String, decideAction (.error e) = "WAIT") ∧
    (∀ a : String, pyUpper (pyStrip a) ≠ "PLAY" → pyUpper (pyStrip a) ≠ "WAIT" →
      decideAction (.ok (some a)) = "WAIT") ∧
    (∀ a : String, pyUpper (pyStrip a) = "PLAY" ∨ pyUpper (pyStrip a) = "WAIT" →
      decideAction (.ok (some a)) = pyUpper (pyStrip a)) ∧
    (∀ (d th : String → String) (s : GameState) (p : String × String),
      p ∈ (votingNode d th s).votes → p.2 = "PLAY" ∨ p.2 = "WAIT") := by
  refine ⟨?_, ?_, ?_, ?_, ?_⟩
  · intro attempt
    cases attempt with
    | error e => right; rfl
    | ok r =>
      unfold decideAction
      by_cases hc : pyUpper (pyStrip (r.getD "WAIT")) = "PLAY" ∨
          pyUpper (pyStrip (r.getD "WAIT")) = "WAIT"
      · rcases hc with h1 | h1
        · left; simp [h1]
        · right; simp [h1]
      · right; simp [hc]
  · intro e; rfl
  · intro a h1 h2
    unfold decideAction
    have hno : ¬ (pyUpper (pyStrip a) = "PLAY" ∨ pyUpper (pyStrip a) = "WAIT") := by
      rintro (h | h)
      · exact h1 h
      · exact h2 h
    simp only [Option.getD_some, if_neg hno]
  · intro a h
    unfold decideAction
    rcases h with h1 | h1 <;> simp [h1]
  · intro d th s p hp
    have hmem := mem_buildVotes hp
    rw [hmem.2.2]
    exact normalizeAction_cases _

/-- C10: after a Voting phase the vote keys are exactly the agents not
yet finished, in agent-list order and each exactly once; every recorded
value is `PLAY` or `WAIT`; and the result replaces any previous votes
entirely (it does not depend on them). -/
theorem C10_votes_exactly_active_agents (d th : String → String) (s : GameState)
    (hnd : s.agents.Nodup) :
    ((votingNode d th s).votes.map Prod.fst =
      s.agents.filter (fun a => !s.finished_agents.contains a)) ∧
    ((votingNode d th s).votes.map Prod.fst).Nodup ∧
    (∀ p ∈ (votingNode d th s).votes, p.2 = "PLAY" ∨ p.2 = "WAIT") ∧
    (∀ votes0 : List (String × String),
      (votingNode d th { s with votes := votes0 }).votes =
        (votingNode d th s).votes) := by
  have hkeys : (votingNode d th s).votes.map Prod.fst =
      s.agents.filter (fun a => !s.finished_agents.contains a) := by
    show (buildVotes d s.finished_agents s.agents).map Prod.fst = _
    rw [buildVotes_eq, List.map_map]
    have hid : (Prod.fst ∘ fun a => (a, normalizeAction (d a))) = id := rfl
    rw [hid, List.map_id]
  refine ⟨hkeys, ?_, ?_, ?_⟩
  · rw [hkeys]
    exact hnd.filter _
  · intro p hp
    have hmem := mem_buildVotes hp
    rw [hmem.2.2]
    exact normalizeAction_cases _
  · intro votes0
    rfl

/-- Characterisation of the proposal loop relative to the running
`seen_questions` set: `(a, t)` is recorded iff `t` is the non-empty
stripped proposal of `a`, `t` was not already seen, and `a` is the first
agent in the list whose stripped proposal is `t`. -/
lemma mem_collectProposals (pq : String → String) :
    ∀ (agents seen : List String) (a t : String),
      ((a, t) ∈ collectProposals pq agents seen ↔
        (t ≠ "" ∧ t ∉ seen ∧ pyStrip (pq a) = t ∧
          agents.find? (fun b => pyStrip (pq b) == t) = some a)) := by
  intro agents
  induction agents with
  | nil =>
    intro seen a t
    simp [collectProposals]
  | cons x rest ih =>
    intro seen a t
    by_cases hcond : pyStrip (pq x) ≠ "" ∧ !seen.contains (pyStrip (pq x))
    · simp only [collectProposals]
      rw [if_pos hcond]
      have hq1 : pyStrip (pq x) ≠ "" := hcond.1
      have hq2m : pyStrip (pq x) ∉ seen := by simpa using hcond.2
      by_cases hqt : pyStrip (pq x) = t
      · constructor
        · intro hmem
          rcases List.mem_cons.mp hmem with heq | hmem2
          · rw [Prod.mk.injEq] at heq
            obtain ⟨ha, ht⟩ := heq
            refine ⟨?_, ?_, ?_, ?_⟩
            · rw [ht]; exact hq1
            · rw [ht]; exact hq2m
            · rw [ha, ← ht]
            · rw [List.find?_cons_of_pos _ (by simp [hqt])]
              rw [ha]
          · have hr := (ih (pyStrip (pq x) :: seen) a t).mp hmem2
            exfalso
            apply hr.2.1
            rw [← hqt]
            exact List.mem_cons_self _ _
        · rintro ⟨ht1, ht2, ht3, ht4⟩
          rw [List.find?_cons_of_pos _ (by simp [hqt])] at ht4
          have ha : x = a := Option.some.inj ht4
          apply List.mem_cons.mpr
          left
          rw [Prod.mk.injEq]
          exact ⟨ha.symm, hqt.symm⟩
      · constructor
        · intro hmem
          rcases List.mem_cons.mp hmem with heq | hmem2
          · rw [Prod.mk.injEq] at heq
            exact absurd heq.2.symm hqt
          · have hr := (ih (pyStrip (pq x) :: seen) a t).mp hmem2
            refine ⟨hr.1, ?_, hr.2.2.1, ?_⟩
            · intro hts
              exact hr.2.1 (List.mem_cons_of_mem _ hts)
            · rw [List.find?_cons_of_neg _ (by simp [hqt])]
              exact hr.2.2.2
        · rintro ⟨ht1, ht2, ht3, ht4⟩
          rw [List.find?_cons_of_neg _ (by simp [hqt])] at ht4
          refine List.mem_cons_of_mem _
            ((ih (pyStrip (pq x) :: seen) a t).mpr ⟨ht1, ?_, ht3, ht4⟩)
          intro hts
          rcases List.mem_cons.mp hts with h1 | h1
          · exact hqt h1.symm
          · exact ht2 h1
    · simp only [collectProposals]
      rw [if_neg hcond]
      have hdis : pyStrip (pq x) = "" ∨ pyStrip (pq x) ∈ seen := by
        by_contra hno
        push_neg at hno
        exact hcond ⟨hno.1, by simpa using hno.2⟩
      rw [ih seen a t]
      by_cases hqt : pyStrip (pq x) = t
      · constructor <;>
          · rintro ⟨ht1, ht2, -, -⟩
            exfalso
            rcases hdis with h1 | h1
            · rw [hqt] at h1; exact ht1 h1
            · rw [hqt] at h1; exact ht2 h1
      · rw [List.find?_cons_of_neg _ (by simp [hqt])]

/-- The recorded question texts are distinct and disjoint from the seen
set. -/
lemma collectProposals_nodup (pq : String → String) :
    ∀ (agents seen : List String),
      ((collectProposals pq agents seen).map Prod.snd).Nodup ∧
      ∀ t ∈ (collectProposals pq agents seen).map Prod.snd, t ∉ seen := by
  intro agents
  induction agents with
  | nil =>
    intro seen
    simp [collectProposals]
  | cons x rest ih =>
    intro seen
    by_cases hcond : pyStrip (pq x) ≠ "" ∧ !seen.contains (pyStrip (pq x))
    · simp only [collectProposals]
      rw [if_pos hcond]
      obtain ⟨h1, h2⟩ := ih (pyStrip (pq x) :: seen)
      have hq2m : pyStrip (pq x) ∉ seen := by simpa using hcond.2
      constructor
      · simp only [List.map_cons, List.nodup_cons]
        refine ⟨fun hmem => ?_, h1⟩
        exact (h2 _ hmem) (List.mem_cons_self _ _)
      · intro t ht
        simp only [List.map_cons, List.mem_cons] at ht
        rcases ht with rfl | ht2
        · exact hq2m
        · intro hts
          exact (h2 t ht2) (List.mem_cons_of_mem _ hts)
    · simp only [collectProposals]
      rw [if_neg hcond]
      exact ih seen

/-- C8: question proposals are deduplicated by exact (stripped) string
equality with the first proposer winning; the recorded texts are
pairwise distinct; and the moderator fallbacks guarantee at least one
question: the general-question provider's text if nobody proposed, and
the fixed default question if that is empty too. -/
theorem C8_question_dedup_and_fallback :
    (∀ (pq : String → String) (agents : List String) (a t : String),
      ((a, t) ∈ collectProposals pq agents [] ↔
        (t ≠ "" ∧ pyStrip (pq a) = t ∧
          agents.find? (fun b => pyStrip (pq b) == t) = some a))) ∧
    (∀ (pq : String → String) (agents : List String),
      ((collectProposals pq agents []).map Prod.snd).Nodup) ∧
    (∀ (pq : String → String) (gq : String) (agents : List String),
      finalProposals pq gq agents ≠ []) ∧
    (∀ (pq : String → String) (gq : String) (agents : List String),
      collectProposals pq agents [] = [] → pyStrip gq ≠ "" →
      finalProposals pq gq agents = [("(moderator)", pyStrip gq)]) ∧
    (∀ (pq : String → String) (gq : String) (agents : List String),
      collectProposals pq agents [] = [] → pyStrip gq = "" →
      finalProposals pq gq agents = [("(moderator)", defaultModQuestion)]) := by
  refine ⟨?_, ?_, ?_, ?_, ?_⟩
  · intro pq agents a t
    rw [mem_collectProposals pq agents [] a t]
    simp
  · intro pq agents
    exact (collectProposals_nodup pq agents []).1
  · intro pq gq agents
    simp only [finalProposals]
    by_cases hps : (collectProposals pq agents []).isEmpty
    · rw [if_pos hps]
      by_cases hgq : pyStrip gq ≠ ""
      · simp [hgq]
      · simp [hgq]
    · rw [if_neg hps]
      intro hnil
      rw [hnil] at hps
      exact hps rfl
  · intro pq gq agents hempty hgq
    simp only [finalProposals]
    rw [hempty]
    simp [hgq]
  · intro pq gq agents hempty hgq
    simp only [finalProposals]
    rw [hempty]
    simp [hgq]

/-! ## A concrete run (the descent scenario: A holds 50, B holds 10)

Agent A plays first (card 50), then B plays card 10 < 50 and the game
fails.  This exercises Setup with a pre-supplied hand mapping, both
Voting rounds, both PlayResolution branches, and the terminal edge. -/

/-- A concrete two-agent engine configuration. -/
def demoCfg : Config :=
  { agentIds := ["A", "B"], maxTurns := 20, theme := "", randomTheme := "t" }

/-- A pre-seeded initial state with a complete hand mapping. -/
def demoS0 : GameState := { hands := [("A", 50), ("B", 10)] }

/-- The state produced by Setup. -/
def demoS1 : GameState := (setupNode demoCfg [] demoS0).toOption.getD default

/-- A constant speaking provider. -/
def demoWord : String → String := fun _ => "w"

/-- The state after the Speaking phase. -/
def demoS2 : GameState := speakingNode demoWord demoWord demoS1

/-- Round-1 votes: only A plays. -/
def demoVote1 : String → String := fun a => if a = "A" then "PLAY" else "WAIT"

/-- The state after the first Voting phase. -/
def demoS3 : GameState := votingNode demoVote1 demoVote1 demoS2

/-- The state after A plays card 50. -/
def demoS4 : GameState := executePlayNode demoS3

/-- Round-2 votes: everyone still active (only B) plays. -/
def demoVote2 : String → String := fun _ => "PLAY"

/-- The state after the second Voting phase. -/
def demoS5 : GameState := votingNode demoVote2 demoVote2 demoS4

/-- The failed final state after B plays card 10 below 50. -/
def demoS6 : GameState := executePlayNode demoS5

lemma demoReach1 : Reach demoCfg .speaking demoS1 :=
  Reach.init [] demoS0 demoS1 rfl

lemma demoReach2 : Reach demoCfg .voting demoS2 :=
  demoReach1.step (Step.speak demoWord demoWord demoS1)

lemma demoReach3 : Reach demoCfg .play demoS3 :=
  demoReach2.step (Step.voteToPlay demoVote1 demoVote1 demoS2 (by decide))

lemma demoReach4 : Reach demoCfg .voting demoS4 :=
  demoReach3.step (Step.playLoop demoS3 (by decide))

lemma demoReach5 : Reach demoCfg .play demoS5 :=
  demoReach4.step (Step.voteToPlay demoVote2 demoVote2 demoS4 (by decide))

lemma demoReach6 : Reach demoCfg .done demoS6 :=
  demoReach5.step (Step.playEnd demoS5 (by decide))

/-- C4 as literally stated is false: the final state of the descent run
is reachable from Setup, yet its `last_played_card` (10, the descending
card just stored) is not the maximum of `played_cards` (`[50, 10]`). -/
theorem C4_counterexample :
    Reach demoCfg .done demoS6 ∧
    demoS6.last_played_card ≠ demoS6.played_cards.foldr max 0 :=
  ⟨demoReach6, by decide⟩

/-! ## Concrete instantiations of the claim theorems -/

/-- C1 applied to the first demo voting state (A votes `PLAY`). -/
theorem C1_witness :
    playCandidates demoS3.votes ≠ [] ∧
    ∃ player,
      minByHand (handOf demoS3) (playCandidates demoS3.votes) = some player ∧
      player ∈ playCandidates demoS3.votes ∧
      (∀ a ∈ playCandidates demoS3.votes, handOf demoS3 player ≤ handOf demoS3 a) ∧
      (executePlayNode demoS3).played_cards =
        demoS3.played_cards ++ [handOf demoS3 player] ∧
      (executePlayNode demoS3).last_played_card = handOf demoS3 player :=
  ⟨by decide, C1_play_resolution_plays_minimum demoS3 (by decide)⟩

/-- C2 applied to the second demo voting state (B plays 10 below 50). -/
theorem C2_witness :
    ((executePlayNode demoS5).status = "FAILED" ↔
      handOf demoS5 "B" < demoS5.last_played_card) ∧
    ((executePlayNode demoS5).status = "SUCCESS" ↔
      (¬ handOf demoS5 "B" < demoS5.last_played_card ∧
        ∀ a ∈ demoS5.agents, a ∈ demoS5.finished_agents ++ ["B"])) ∧
    ((executePlayNode demoS5).status = "ACTIVE" ↔
      (¬ handOf demoS5 "B" < demoS5.last_played_card ∧
        ¬ ∀ a ∈ demoS5.agents, a ∈ demoS5.finished_agents ++ ["B"])) :=
  C2_play_status_transition demoS5 "B" (by decide) (by decide) (by decide)
    (by decide) (by decide) (by decide)

/-- A configuration whose turn budget is exhausted by one round. -/
def demoWaitCfg : Config :=
  { agentIds := ["A", "B"], maxTurns := 1, theme := "", randomTheme := "t" }

/-- A provider proposing no question. -/
def demoNoQ : String → String := fun _ => ""

/-- A provider answering nothing. -/
def demoNoAns : String → String → String := fun _ _ => ""

/-- C3 applied to a DiscussionRound that exhausts `max_turns = 1`. -/
theorem C3_witness :
    (waitRoundNode demoWaitCfg demoNoQ "" demoNoAns demoS2).turn_count =
      demoS2.turn_count + 1 ∧
    (waitRoundNode demoWaitCfg demoNoQ "" demoNoAns demoS2).votes = [] ∧
    ((waitRoundNode demoWaitCfg demoNoQ "" demoNoAns demoS2).status = "FAILED" ↔
      demoWaitCfg.maxTurns ≤ demoS2.turn_count + 1) ∧
    (demoWaitCfg.maxTurns ≤ demoS2.turn_count + 1 →
      (waitRoundNode demoWaitCfg demoNoQ "" demoNoAns demoS2).history =
        demoS2.history ++ waitHistoryUpdate demoNoQ "" demoNoAns (activeAgents demoS2) ++
          ["停滞が続いたため終了。"]) :=
  C3_wait_round_stagnation demoWaitCfg demoNoQ "" demoNoAns demoS2 (by decide)

/-- C4 (amended) applied to the post-Setup state. -/
theorem C4_witness :
    demoS1.last_played_card = demoS1.played_cards.foldr max 0 :=
  C4_last_card_is_max_unless_failed demoReach1 (by decide)

/-- C5 applied to the demo run: the table is sorted while active, and the
descent play fails the game. -/
theorem C5_witness :
    List.Chain' (· ≤ ·) demoS4.played_cards ∧
    (executePlayNode demoS5).status = "FAILED" :=
  ⟨C5_monotone_until_failure.1 demoCfg .voting demoS4 demoReach4 (by decide),
   C5_monotone_until_failure.2.1 demoS5 "B" (by decide) (by decide)⟩

/-- 101 distinct agent identifiers. -/
def agents101 : List String := (List.range 101).map (fun i => toString i)

/-- An engine configuration with more agents than the deck has cards. -/
def cfg101 : Config :=
  { agentIds := agents101, maxTurns := 20, theme := "", randomTheme := "t" }

/-- A concrete `create_deck()` outcome: the cards `1..100`. -/
def deck100 : List Nat := List.range' 1 100

/-- C6 applied to an empty deck and to a 101-agent Setup without
pre-supplied hands. -/
theorem C6_witness :
    draw_card [] = .error .empty ∧
    setupNode cfg101 deck100 {} = .error .empty :=
  ⟨C6_setup_fails_on_deck_exhaustion.1,
   C6_setup_fails_on_deck_exhaustion.2 cfg101 deck100 {} (by decide) (by decide)
     (by decide)⟩

/-- C7 applied to a raising call, a decodable `PLAY` (with padding), and
an out-of-range action. -/
theorem C7_witness :
    decideAction (.error "boom") = "WAIT" ∧
    decideAction (.ok (some " play ")) = "PLAY" ∧
    decideAction (.ok (some "maybe")) = "WAIT" :=
  ⟨C7_estimator_vote_normalized.2.1 "boom",
   (C7_estimator_vote_normalized.2.2.2.1 " play " (Or.inl (by decide))).trans (by decide),
   C7_estimator_vote_normalized.2.2.1 "maybe" (by decide) (by decide)⟩

/-- Demo proposal provider: A and B both propose `q1` (A with padding),
C proposes nothing. -/
def demoPq : String → String :=
  fun a => if a = "A" then " q1 " else if a = "B" then "q1" else ""

/-- C8 applied to the duplicate-proposal scenario and to the
everyone-silent fallback. -/
theorem C8_witness :
    (("A", "q1") ∈ collectProposals demoPq ["A", "B", "C"] [] ↔
      ("q1" ≠ "" ∧ pyStrip (demoPq "A") = "q1" ∧
        ["A", "B", "C"].find? (fun b => pyStrip (demoPq b) == "q1") = some "A")) ∧
    finalProposals demoPq "" ["A", "B", "C"] ≠ [] ∧
    finalProposals (fun _ => "") "" ["A"] = [("(moderator)", defaultModQuestion)] :=
  ⟨C8_question_dedup_and_fallback.1 demoPq ["A", "B", "C"] "A" "q1",
   C8_question_dedup_and_fallback.2.2.1 demoPq "" ["A", "B", "C"],
   C8_question_dedup_and_fallback.2.2.2.2 (fun _ => "") "" ["A"] (by decide) (by decide)⟩

/-- C9 applied to the failed final state of the demo run. -/
theorem C9_witness :
    demoS6.finished_agents.Nodup ∧
    (∀ a ∈ demoS6.finished_agents, a ∈ demoS6.agents) ∧
    demoS6.played_cards.length = demoS6.finished_agents.length :=
  C9_finished_agents_invariant demoReach6

/-- C10 applied to the second demo voting phase (A already finished). -/
theorem C10_witness :
    ((votingNode demoVote2 demoVote2 demoS4).votes.map Prod.fst =
      demoS4.agents.filter (fun a => !demoS4.finished_agents.contains a)) ∧
    ((votingNode demoVote2 demoVote2 demoS4).votes.map Prod.fst).Nodup ∧
    (∀ p ∈ (votingNode demoVote2 demoVote2 demoS4).votes,
      p.2 = "PLAY" ∨ p.2 = "WAIT") ∧
    (∀ votes0 : List (String × String),
      (votingNode demoVote2 demoVote2 { demoS4 with votes := votes0 }).votes =
        (votingNode demoVote2 demoVote2 demoS4).votes) :=
  C10_votes_exactly_active_agents demoVote2 demoVote2 demoS4 (by decide)

end Ito
